import Mathlib

/-!
Shallow embedding of scripts/generate_changelog.py.

Strings are modelled as lists of characters.  The Python regular
expressions used by the script involve only the classes backslash-w,
backslash-s, the dot, a negated single-character class, literal
characters and the anchors; for each concrete pattern the greedy
backtracking search is forced (the character classes are disjoint from
the delimiters that follow them), so every pattern is embedded as a
first-order function whose branches mirror the unique backtracking run.
Character classes are modelled over the ASCII range, which covers every
string the script itself produces or compares against.
-/

set_option linter.unusedVariables false

namespace Changelog

/-- Characters accepted by the regex class backslash-w (ASCII range). -/
def isWordChar (c : Char) : Bool := c.isAlphanum || c = '_'

/-- Characters accepted by the regex class backslash-s (ASCII range); these are
also the characters removed by the Python method str.strip with no argument. -/
def isPySpace (c : Char) : Bool :=
  c = ' ' || c = '\t' || c = '\n' || c = '\r' || c = '\x0b' || c = '\x0c'

/-- Python str.strip: remove whitespace from both ends. -/
def pyStrip (s : List Char) : List Char :=
  ((s.dropWhile isPySpace).reverse.dropWhile isPySpace).reverse

/-- A raw commit record as built by get_commits. -/
structure RawCommit where
  hash : List Char
  subject : List Char
  author : List Char
  date : List Char
  body : List Char
deriving DecidableEq

/-- A classified commit as returned by parse_commit: the raw fields plus
category, scope and description. -/
structure ClassifiedCommit where
  hash : List Char
  subject : List Char
  author : List Char
  date : List Char
  body : List Char
  category : List Char
  scope : List Char
  description : List Char
deriving DecidableEq

/-- The named groups of a successful CONV_PATTERN match. -/
structure ConvMatch where
  ctype : List Char
  scope : Option (List Char)
  bang : Bool
  desc : List Char
deriving DecidableEq

/-- Tail of CONV_PATTERN after the colon: a greedy whitespace star, then one
or more characters other than newline, then the dollar anchor, which in Python
holds at the end of the string or just before a final newline.  Backtracking
cannot shrink the dot-plus run (shrinking would place a non-newline character
where the anchor must hold), so only the maximal run is a candidate. -/
def matchDescTail (r : List Char) : Option (List Char) :=
  let d := r.takeWhile (fun c => c ≠ '\n')
  let rest := r.dropWhile (fun c => c ≠ '\n')
  if d ≠ [] ∧ (rest = [] ∨ rest = ['\n']) then some d else none

/-- Greedy whitespace star followed by the description: consume a whitespace
character first and fall back to starting the description at it only when the
longer attempt fails, exactly the backtracking order of the regex engine. -/
def matchSpacesDesc : List Char → Option (List Char)
  | [] => none
  | c :: cs =>
    if isPySpace c then
      match matchSpacesDesc cs with
      | some d => some d
      | none => matchDescTail (c :: cs)
    else matchDescTail (c :: cs)

/-- CONV_PATTERN after the type token and optional scope group: an optional
exclamation mark, a colon, then the whitespace star and the description. -/
def afterScope (ty : List Char) (sc : Option (List Char)) : List Char → Option ConvMatch
  | '!' :: ':' :: r => (matchSpacesDesc r).map (fun d => ⟨ty, sc, true, d⟩)
  | ':' :: r => (matchSpacesDesc r).map (fun d => ⟨ty, sc, false, d⟩)
  | _ => none

/-- CONV_PATTERN applied with re.match, anchored at the start of the subject.
The type token is the maximal run of word characters (a shorter run would put
a word character where a parenthesis, exclamation mark or colon is required);
the scope class excludes the closing parenthesis, so its greedy run is the
text up to the first closing parenthesis. -/
def matchConv (subject : List Char) : Option ConvMatch :=
  let ty := subject.takeWhile isWordChar
  if ty = [] then none
  else
    match subject.dropWhile isWordChar with
    | '(' :: r2 =>
      (match r2.dropWhile (fun c => c ≠ ')') with
       | ')' :: r3 => afterScope ty (some (r2.takeWhile (fun c => c ≠ ')'))) r3
       | _ => none)
    | r1 => afterScope ty none r1

/-- The CONVENTIONAL_MAP table, in source order. -/
def CONVENTIONAL_MAP : List (List Char × List Char) :=
  [("feat".data, "Added".data), ("fix".data, "Fixed".data),
   ("docs".data, "Documentation".data), ("refactor".data, "Changed".data),
   ("style".data, "Changed".data), ("perf".data, "Performance".data),
   ("test".data, "Tests".data), ("chore".data, "Maintenance".data),
   ("ci".data, "Maintenance".data), ("build".data, "Maintenance".data),
   ("revert".data, "Removed".data), ("deprecate".data, "Deprecated".data)]

/-- The CATEGORY_ORDER display list. -/
def CATEGORY_ORDER : List (List Char) :=
  ["Breaking Changes".data, "Added".data, "Fixed".data, "Changed".data,
   "Deprecated".data, "Removed".data, "Performance".data, "Security".data,
   "Documentation".data, "Tests".data, "Maintenance".data, "Other".data]

/-- The literal breaking-change marker looked up in subject and body. -/
def BREAKING_MARK : List Char := "BREAKING CHANGE".data

/-- Does the needle occur at the start of the haystack. -/
def startsWithChars : List Char → List Char → Bool
  | [], _ => true
  | _ :: _, [] => false
  | a :: as, b :: bs => a = b && startsWithChars as bs

/-- Python substring membership: the needle occurs somewhere in the haystack. -/
def containsSub (needle : List Char) : List Char → Bool
  | [] => startsWithChars needle []
  | c :: cs => startsWithChars needle (c :: cs) || containsSub needle cs

/-- parse_commit: classify one raw commit.  On a pattern match the category
comes from CONVENTIONAL_MAP with default Other, overridden to Breaking Changes
by the bang marker or the literal marker in subject or body; otherwise the
commit is Other with an empty scope and the full subject as description. -/
def parse_commit (c : RawCommit) : ClassifiedCommit :=
  match matchConv c.subject with
  | some m =>
    let baseCat := (CONVENTIONAL_MAP.lookup m.ctype).getD "Other".data
    let category :=
      if m.bang || containsSub BREAKING_MARK c.subject
          || containsSub BREAKING_MARK c.body then
        "Breaking Changes".data
      else baseCat
    ⟨c.hash, c.subject, c.author, c.date, c.body, category, m.scope.getD [], m.desc⟩
  | none => ⟨c.hash, c.subject, c.author, c.date, c.body, "Other".data, [], c.subject⟩

/-- group_commits: iterate over the raw commits in order, parsing each and
appending it to the bucket of its category.  The Python defaultdict is
modelled as the function from category to bucket; a key is present in the
dict exactly when its bucket is nonempty, since keys are only ever created
by an append. -/
def groupStep (g : List Char → List ClassifiedCommit) (c : RawCommit) :
    List Char → List ClassifiedCommit :=
  let p := parse_commit c
  fun cat => if cat = p.category then g cat ++ [p] else g cat

def group_commits (commits : List RawCommit) : List Char → List ClassifiedCommit :=
  commits.foldl groupStep (fun _ => [])

/-- One keepachangelog bullet line. -/
def kacBullet (c : ClassifiedCommit) : List Char :=
  "- ".data ++ (if c.scope ≠ [] then "**".data ++ c.scope ++ "**: ".data else [])
    ++ c.description ++ " (".data ++ c.hash ++ ")".data

/-- One conventional bullet line. -/
def convBullet (c : ClassifiedCommit) : List Char :=
  "* ".data ++ (if c.scope ≠ [] then "**".data ++ c.scope ++ ":** ".data else [])
    ++ c.description ++ " ([".data ++ c.hash ++ "])".data

/-- One grouped-layout bullet line, showing the raw subject, hash and author. -/
def groupedBullet (c : RawCommit) : List Char :=
  "- ".data ++ c.subject ++ " (".data ++ c.hash ++ ", ".data ++ c.author ++ ")".data

/-- A category section heading line as appended by the formatters. -/
def secHeading (cat : List Char) : List Char := "### ".data ++ cat ++ "\n".data

/-- A date section heading line as appended by format_grouped. -/
def dateHeading (d : List Char) : List Char := "## ".data ++ d ++ "\n".data

/-- The lines list built by format_keepachangelog before the join: the header,
then for each category of CATEGORY_ORDER present in the grouped dict its
heading, its bullets, and an empty separator line.  The date printed by the
script comes from the clock and is passed in as the today argument. -/
def kacLines (commits : List RawCommit) (to_ref today : List Char) : List (List Char) :=
  ("## [".data ++ to_ref ++ "] - ".data ++ today ++ "\n".data)
    :: CATEGORY_ORDER.flatMap (fun cat =>
        if group_commits commits cat = [] then []
        else secHeading cat :: (group_commits commits cat).map kacBullet ++ [[]])

def format_keepachangelog (commits : List RawCommit) (from_ref to_ref today : List Char) :
    List Char :=
  List.intercalate "\n".data (kacLines commits to_ref today)

/-- The lines list built by format_conventional before the join. -/
def convLines (commits : List RawCommit) (to_ref today : List Char) : List (List Char) :=
  ("# ".data ++ to_ref ++ " (".data ++ today ++ ")\n".data)
    :: CATEGORY_ORDER.flatMap (fun cat =>
        if group_commits commits cat = [] then []
        else secHeading cat :: (group_commits commits cat).map convBullet ++ [[]])

def format_conventional (commits : List RawCommit) (from_ref to_ref today : List Char) :
    List Char :=
  List.intercalate "\n".data (convLines commits to_ref today)

/-- Keys of the by_date defaultdict in insertion order: the distinct commit
dates, first occurrence first. -/
def dateKeys : List (List Char) → List (List Char)
  | [] => []
  | d :: ds => d :: (dateKeys ds).filter (fun x => x ≠ d)

/-- Lexicographic comparison of strings by character code, as Python compares
strings. -/
def lexLt : List Char → List Char → Bool
  | _, [] => false
  | [], _ :: _ => true
  | a :: as, b :: bs => a < b || (a = b && lexLt as bs)

/-- Insert into a descending list: x goes before the first element it is not
below. -/
def insertDesc (x : List Char) : List (List Char) → List (List Char)
  | [] => [x]
  | y :: ys => if lexLt x y then y :: insertDesc x ys else x :: y :: ys

/-- Python sorted with reverse true on distinct keys: descending order. -/
def sortDesc : List (List Char) → List (List Char)
  | [] => []
  | x :: xs => insertDesc x (sortDesc xs)

/-- The by_date defaultdict loop of format_grouped: iterate over the commits
in order, appending each to the bucket of its date. -/
def dateStep (g : List Char → List RawCommit) (c : RawCommit) :
    List Char → List RawCommit :=
  fun d => if d = c.date then g d ++ [c] else g d

def byDate (commits : List RawCommit) : List Char → List RawCommit :=
  commits.foldl dateStep (fun _ => [])

/-- The lines list built by format_grouped before the join: the header, then
for each distinct date in descending order its heading, the bullets of the
commits carrying that date in input order, and an empty separator line. -/
def groupedLines (commits : List RawCommit) (from_ref to_ref : List Char) :
    List (List Char) :=
  ("# Changes: ".data ++ from_ref ++ " -> ".data ++ to_ref ++ "\n".data)
    :: (sortDesc (dateKeys (commits.map (fun c => c.date)))).flatMap (fun d =>
        dateHeading d :: (byDate commits d).map groupedBullet ++ [[]])

def format_grouped (commits : List RawCommit) (from_ref to_ref : List Char) : List Char :=
  List.intercalate "\n".data (groupedLines commits from_ref to_ref)

/-- End position of the match of the heading pattern, caret hash space
dot-plus newline, searched without the multiline flag: the caret only holds at
position zero, so the pattern matches exactly when the text starts with hash,
space, at least one non-newline character, and a newline closing that first
line.  The end position is then the index just past that newline.  The
condition that a newline follows the maximal non-newline run is stated with
dropWhile, which equals dropping the length of the takeWhile run. -/
def h1End (s : List Char) : Option Nat :=
  match s with
  | '#' :: ' ' :: rest =>
    if rest.takeWhile (fun c => c ≠ '\n') = []
        ∨ rest.dropWhile (fun c => c ≠ '\n') = [] then none
    else some ((rest.takeWhile (fun c => c ≠ '\n')).length + 3)
  | _ => none

/-- prepend_to_file on an existing file: find the heading match end, advance
past any further newline characters, and splice the new content there with a
newline before it and two after. -/
def prependExisting (existing new_content : List Char) : List Char :=
  match h1End existing with
  | some e =>
    let ip := e + ((existing.drop e).takeWhile (fun c => c = '\n')).length
    existing.take ip ++ '\n' :: new_content ++ '\n' :: '\n' :: existing.drop ip
  | none => new_content ++ '\n' :: '\n' :: existing

/-- prepend_to_file: the argument is the current content of the target file,
none when the file does not exist; the result is the content written back. -/
def prepend_to_file : Option (List Char) → List Char → List Char
  | none, new_content => "# Changelog\n\n".data ++ new_content ++ "\n".data
  | some existing, new_content => prependExisting existing new_content

/-- The field separator written into the git pretty format. -/
def FIELD_SEP : Char := '\x00'

/-- The record separator written into the git pretty format. -/
def RECORD_SEP : Char := '\x01'

/-- Python str.split on a one-character separator, no limit: splitting the
empty string yields one empty field. -/
def splitOnChar (sep : Char) : List Char → List (List Char)
  | [] => [[]]
  | c :: cs =>
    if c = sep then [] :: splitOnChar sep cs
    else
      match splitOnChar sep cs with
      | [] => [[c]]
      | r :: rs => (c :: r) :: rs

/-- Python str.split on a one-character separator with a maximum number of
splits: once the budget is exhausted the rest is one field. -/
def splitLimit (sep : Char) : Nat → List Char → List (List Char)
  | _, [] => [[]]
  | 0, s => [s]
  | n + 1, c :: cs =>
    if c = sep then [] :: splitLimit sep n cs
    else
      match splitLimit sep (n + 1) cs with
      | [] => [[c]]
      | r :: rs => (c :: r) :: rs

/-- One loop body of get_commits: strip the record, skip it when empty, split
into at most five fields on the field separator, keep it only when all five
fields are present, truncating the hash to eight and the date to ten
characters and stripping the body. -/
def parseRecord (record : List Char) : Option RawCommit :=
  let r := pyStrip record
  if r = [] then none
  else
    match splitLimit FIELD_SEP 4 r with
    | [p0, p1, p2, p3, p4] => some ⟨p0.take 8, p1, p2, p3.take 10, pyStrip p4⟩
    | _ => none

/-- get_commits applied to the outcome of the git log invocation: none when
the command exited nonzero (run_git returns None), otherwise the raw standard
output, which run_git strips.  A falsy result, failure or empty output, gives
the empty commit list; otherwise the output is split into records and each
well-formed record becomes a commit. -/
def get_commits (raw : Option (List Char)) : List RawCommit :=
  match raw with
  | none => []
  | some stdoutRaw =>
    let out := pyStrip stdoutRaw
    if out = [] then []
    else (splitOnChar RECORD_SEP out).filterMap parseRecord

/-- The three admissible values of the format flag, enforced by argparse. -/
inductive OutFormat where
  | keepachangelog
  | conventional
  | grouped
deriving DecidableEq

/-- The parsed command line. -/
structure Args where
  from_ref : Option (List Char)
  to_ref : List Char
  format : OutFormat
  output : Option (List Char)
  version_label : Option (List Char)
  prependFlag : Bool
  no_merges : Bool
  exclude_types : Option (List Char)
deriving DecidableEq

/-- The external collaborators of one run: the standard output of each git
invocation (none models a nonzero exit), the filesystem contents read by the
merge, and the date of the clock. -/
structure GitEnv where
  describeTags : Option (List Char)
  revListRoot : Option (List Char)
  logOut : List Char → List Char → Bool → Option (List Char)
  files : List Char → Option (List Char)
  today : List Char

/-- Python truthiness of an optional string: present and nonempty. -/
def truthy : Option (List Char) → Bool
  | none => false
  | some s => s ≠ []

/-- The exclusion set built from the exclude-types flag: split on commas and
strip each piece. -/
def excludedOf (s : List Char) : List (List Char) :=
  (splitOnChar ',' s).map pyStrip

/-- The type-exclusion loop of main: a commit is dropped exactly when its
subject matches CONV_PATTERN and the matched type token is in the exclusion
set. -/
def excludeFilter (excluded : List (List Char)) (commits : List RawCommit) :
    List RawCommit :=
  commits.filter (fun c =>
    match matchConv c.subject with
    | some m => !(excluded.contains m.ctype)
    | none => true)

/-- The formatter dispatch table applied as main applies it: the label passed
as the to_ref argument, the clock date injected. -/
def applyFormatter (f : OutFormat) (commits : List RawCommit)
    (from_ref label today : List Char) : List Char :=
  match f with
  | .keepachangelog => format_keepachangelog commits from_ref label today
  | .conventional => format_conventional commits from_ref label today
  | .grouped => format_grouped commits from_ref label

/-- The from-ref resolution of main: the flag when truthy, else the latest
tag, else the first commit, each a run_git result and therefore stripped and
tested for truthiness; the successful cases also carry the informational
message printed when the first-commit fallback is used.  none means the fatal
no-tags-no-commits exit. -/
def resolveFrom (args : Args) (env : GitEnv) :
    Option (List Char × List (List Char)) :=
  if truthy args.from_ref then some (args.from_ref.getD [], [])
  else
    let tag := Option.map pyStrip env.describeTags
    if truthy tag then some (tag.getD [], [])
    else
      let first := Option.map pyStrip env.revListRoot
      if truthy first then
        some (first.getD [],
          ["No tags found, using first commit: ".data ++ (first.getD []).take 8])
      else none

/-- The observable outcome of one run of main: the exit code, the file writes
performed as path-content pairs, the changelog text printed to standard
output when no output file is given, the standard error lines in order, and
whether the git log record fetch was reached. -/
structure RunResult where
  exitCode : Nat
  writes : List (List Char × List Char)
  stdoutText : Option (List Char)
  stderrLines : List (List Char)
  logQueried : Bool
deriving DecidableEq

/-- The stderr line printed before rendering. -/
def processingMsg (n : Nat) (from_ref to_ref : List Char) : List Char :=
  "Processing ".data ++ Nat.toDigits 10 n ++ " commits (".data
    ++ from_ref ++ "..".data ++ to_ref ++ ")".data

/-- main after the from-ref resolution: fetch the records, stop with exit
zero on an empty range, apply the exclusion filter when the flag is truthy,
stop with exit zero when nothing remains, then render and write. -/
def mainAfterFrom (args : Args) (env : GitEnv) (from_ref : List Char)
    (pre : List (List Char)) : RunResult :=
  let commits := get_commits (env.logOut from_ref args.to_ref args.no_merges)
  if commits = [] then
    ⟨0, [], none, pre ++ ["No commits found in range.".data], true⟩
  else
    let commits2 :=
      if truthy args.exclude_types then
        excludeFilter (excludedOf (args.exclude_types.getD [])) commits
      else commits
    if commits2 = [] then
      ⟨0, [], none, pre ++ ["No commits remaining after filtering.".data], true⟩
    else
      let label := if truthy args.version_label then args.version_label.getD []
                   else args.to_ref
      let text := applyFormatter args.format commits2 from_ref label env.today
      let msgs := pre ++ [processingMsg commits2.length from_ref args.to_ref]
      if truthy args.output then
        let path := args.output.getD []
        if args.prependFlag then
          ⟨0, [(path, prepend_to_file (env.files path) text)], none,
           msgs ++ ["Changelog prepended to ".data ++ path], true⟩
        else
          ⟨0, [(path, text)], none,
           msgs ++ ["Changelog written to ".data ++ path], true⟩
      else
        ⟨0, [], some text, msgs, true⟩

/-- main: the prepend-without-output configuration check comes first, before
any git invocation and before any write; then the from-ref resolution with
its fatal exit; then the rest of the pipeline. -/
def runMain (args : Args) (env : GitEnv) : RunResult :=
  if args.prependFlag && !(truthy args.output) then
    ⟨1, [], none, ["Error: --prepend requires --output.".data], false⟩
  else
    match resolveFrom args env with
    | none => ⟨1, [], none, ["Error: No tags or commits found.".data], false⟩
    | some (fr, pre) => mainAfterFrom args env fr pre

/-- A fixture environment for witnesses: every git invocation fails, the
filesystem is empty. -/
def sampleEnv : GitEnv :=
  ⟨none, none, fun _ _ _ => none, fun _ => none, "2024-01-01".data⟩

/-- A fixture command line with the prepend flag set and no output path. -/
def samplePrependArgs : Args :=
  ⟨some "v1".data, "HEAD".data, .keepachangelog, none, none, true, false, none⟩

/-- A fixture command line that passes the configuration checks. -/
def sampleOkArgs : Args :=
  ⟨some "v1".data, "HEAD".data, .keepachangelog, none, none, false, false, none⟩

/-- A fixture raw commit with a breaking-change marker subject. -/
def sampleBangCommit : RawCommit :=
  ⟨"abcd1234".data, "fix(api)!: crash on null".data, "ann".data,
   "2024-01-02".data, [] ⟩

/-- A fixture raw commit whose subject does not match the pattern. -/
def samplePlainCommit : RawCommit :=
  ⟨"abcd1234".data, "update stuff".data, "ann".data, "2024-01-03".data, [] ⟩

/-- A fixture raw commit with a feat subject. -/
def sampleFeatCommit : RawCommit :=
  ⟨"00112233".data, "feat: add login".data, "bee".data, "2024-01-04".data, [] ⟩

-- Concrete conformance checks of the embedding against the behaviour of the
-- Python regular-expression engine and string operations on edge cases.
example : prepend_to_file (some "# Title\n\nOld content".data) "New entry".data
    = "# Title\n\n\nNew entry\n\nOld content".data := by decide
example : prepend_to_file (some "# Title\nOld".data) "N".data
    = "# Title\n\nN\n\nOld".data := by decide
example : prepend_to_file (some "intro\n# Real\nbody".data) "N".data
    = "N\n\nintro\n# Real\nbody".data := by decide
example : prepend_to_file (some "# T\n\n\n".data) "N".data
    = "# T\n\n\n\nN\n\n".data := by decide
example : prepend_to_file none "N".data = "# Changelog\n\nN\n".data := by decide
example : prepend_to_file (some "# \nOld".data) "N".data = "N\n\n# \nOld".data := by decide
example : matchConv "feat:no space".data
    = some ⟨"feat".data, none, false, "no space".data⟩ := by decide
example : matchConv "feat():x".data
    = some ⟨"feat".data, some [], false, "x".data⟩ := by decide
example : matchConv "feat: \n".data = some ⟨"feat".data, none, false, " ".data⟩ := by decide
example : matchConv "feat: x\ny".data = none := by decide
example : matchConv "_a: b".data = some ⟨"_a".data, none, false, "b".data⟩ := by decide
example : matchConv "feat: x\n".data = some ⟨"feat".data, none, false, "x".data⟩ := by decide
example : matchConv "feat: add login".data
    = some ⟨"feat".data, none, false, "add login".data⟩ := by decide
example : matchConv "fix(api)!: crash on null".data
    = some ⟨"fix".data, some "api".data, true, "crash on null".data⟩ := by decide
example : matchConv "hello world".data = none := by decide
example : matchConv "feat:".data = none := by decide
example : matchConv "feat: ".data = some ⟨"feat".data, none, false, " ".data⟩ := by decide
example : matchConv "feat(a(b): x".data
    = some ⟨"feat".data, some "a(b".data, false, "x".data⟩ := by decide
example : matchConv "feat(a)b: x".data = none := by decide
example : (parse_commit ⟨"h".data, "chore!: drop".data, "a".data, "d".data, [] ⟩).category
    = "Breaking Changes".data := by decide
example : (parse_commit ⟨"h".data, "see fix(api): x".data, "a".data, "d".data, [] ⟩).category
    = "Other".data := by decide

/-- A successful association-list lookup returns one of the stored values. -/
theorem lookup_mem_snd {α β : Type} [BEq α] (l : List (α × β)) (k : α) (v : β)
    (h : l.lookup k = some v) : v ∈ l.map Prod.snd := by
  induction l with
  | nil => simp [List.lookup] at h
  | cons p l ih =>
    obtain ⟨a, b⟩ := p
    simp only [List.lookup] at h
    split at h
    · cases h; simp
    · simpa using Or.inr (ih h)

/-- Claim C3: whenever the subject matches CONV_PATTERN and the bang marker is
present, or the literal marker BREAKING CHANGE occurs in the subject or the
body, parse_commit assigns the category Breaking Changes, whatever the type
token would map to. -/
theorem c3_breaking_override (c : RawCommit) (m : ConvMatch)
    (h : matchConv c.subject = some m)
    (hb : m.bang = true ∨ containsSub BREAKING_MARK c.subject = true
        ∨ containsSub BREAKING_MARK c.body = true) :
    (parse_commit c).category = "Breaking Changes".data := by
  have hcond : (m.bang || containsSub BREAKING_MARK c.subject
      || containsSub BREAKING_MARK c.body) = true := by
    rcases hb with h1 | h1 | h1 <;> simp [h1]
  unfold parse_commit
  rw [h]
  simp [hcond]

/-- Witness for C3 at a concrete bang commit. -/
theorem c3_breaking_override_witness :
    matchConv sampleBangCommit.subject
      = some ⟨"fix".data, some "api".data, true, "crash on null".data⟩
    ∧ (parse_commit sampleBangCommit).category = "Breaking Changes".data :=
  ⟨by decide,
   c3_breaking_override sampleBangCommit
     ⟨"fix".data, some "api".data, true, "crash on null".data⟩
     (by decide) (Or.inl (by decide))⟩

/-- The unmatched branch of parse_commit, shared by several results below. -/
theorem parse_commit_unmatched (c : RawCommit) (h : matchConv c.subject = none) :
    (parse_commit c).category = "Other".data
    ∧ (parse_commit c).scope = []
    ∧ (parse_commit c).description = c.subject := by
  unfold parse_commit
  rw [h]
  exact ⟨rfl, rfl, rfl⟩

/-- Claim C4: when the subject does not match CONV_PATTERN, parse_commit
returns the category Other, an empty scope, and the full subject as the
description. -/
theorem c4_unmatched (c : RawCommit) (h : matchConv c.subject = none) :
    (parse_commit c).category = "Other".data
    ∧ (parse_commit c).scope = []
    ∧ (parse_commit c).description = c.subject :=
  parse_commit_unmatched c h

/-- Witness for C4 at a concrete non-conventional commit. -/
theorem c4_unmatched_witness :
    matchConv samplePlainCommit.subject = none
    ∧ ((parse_commit samplePlainCommit).category = "Other".data
       ∧ (parse_commit samplePlainCommit).scope = []
       ∧ (parse_commit samplePlainCommit).description = samplePlainCommit.subject) :=
  ⟨by decide, c4_unmatched samplePlainCommit (by decide)⟩

/-- Claim C10: parse_commit is a total deterministic function, its category is
always one of the fixed closed set, and a subject that does not match the
pattern falls back to Other. -/
theorem c10_total_deterministic (c c' : RawCommit) (hcc : c = c') :
    parse_commit c = parse_commit c'
    ∧ (parse_commit c).category ∈ CATEGORY_ORDER
    ∧ (matchConv c.subject = none → (parse_commit c).category = "Other".data) := by
  refine ⟨hcc ▸ rfl, ?_, fun h => (parse_commit_unmatched c h).1⟩
  cases hm : matchConv c.subject with
  | none => rw [(parse_commit_unmatched c hm).1]; decide
  | some m =>
    have hred : (parse_commit c).category
        = (if m.bang || containsSub BREAKING_MARK c.subject
              || containsSub BREAKING_MARK c.body
           then "Breaking Changes".data
           else (CONVENTIONAL_MAP.lookup m.ctype).getD "Other".data) := by
      unfold parse_commit
      rw [hm]
    rw [hred]
    split
    · decide
    · cases hl : CONVENTIONAL_MAP.lookup m.ctype with
      | none => simp only [Option.getD_none]; decide
      | some v =>
        simp only [Option.getD_some]
        have hv := lookup_mem_snd CONVENTIONAL_MAP m.ctype v hl
        have hsub : CONVENTIONAL_MAP.map Prod.snd ⊆ CATEGORY_ORDER := by decide
        exact hsub hv

/-- Witness for C10 at a concrete commit. -/
theorem c10_total_deterministic_witness :
    sampleFeatCommit = sampleFeatCommit
    ∧ (parse_commit sampleFeatCommit = parse_commit sampleFeatCommit
       ∧ (parse_commit sampleFeatCommit).category ∈ CATEGORY_ORDER
       ∧ (matchConv sampleFeatCommit.subject = none →
            (parse_commit sampleFeatCommit).category = "Other".data)) :=
  ⟨rfl, c10_total_deterministic sampleFeatCommit sampleFeatCommit rfl⟩

/-- Claim C1, evaluated at the failing input: merging the rendered content
New entry into a file reading hash-space-Title, blank line, Old content
produces two blank lines between the title and the new entry, not one; the
first conjunct computes the actual output, the second states it differs from
the single-blank-line document the claim describes. -/
theorem c1_merge_blank_lines :
    prepend_to_file (some "# Title\n\nOld content".data) "New entry".data
      = "# Title\n\n\nNew entry\n\nOld content".data
    ∧ prepend_to_file (some "# Title\n\nOld content".data) "New entry".data
      ≠ "# Title\n\nNew entry\n\nOld content".data := by
  constructor
  · decide
  · decide

/-- Claim C2, refuted at a concrete input: the heading search runs without
the multiline flag, so the caret in the pattern only holds at position zero;
a top-level heading on the second line of the file is never found, the new
content is prepended before everything instead of being inserted below the
heading. -/
theorem c2_counterexample :
    prepend_to_file (some "intro\n# Real\nbody".data) "N".data
      = "N\n\nintro\n# Real\nbody".data
    ∧ prepend_to_file (some "intro\n# Real\nbody".data) "N".data
      ≠ "intro\n# Real\n\nN\n\nbody".data := by
  constructor
  · decide
  · decide

/-- Claim C8: with the prepend flag set and no output path, main exits with
code one after the single error line on standard error, performs no file
write, and never reaches the record fetch. -/
theorem c8_prepend_requires_output (args : Args) (env : GitEnv)
    (h1 : args.prependFlag = true) (h2 : args.output = none) :
    runMain args env
      = ⟨1, [], none, ["Error: --prepend requires --output.".data], false⟩ := by
  unfold runMain
  rw [h1, h2]
  rfl

/-- Witness for C8 at a concrete command line. -/
theorem c8_prepend_requires_output_witness :
    samplePrependArgs.prependFlag = true ∧ samplePrependArgs.output = none
    ∧ runMain samplePrependArgs sampleEnv
        = ⟨1, [], none, ["Error: --prepend requires --output.".data], false⟩ :=
  ⟨rfl, rfl, c8_prepend_requires_output samplePrependArgs sampleEnv rfl rfl⟩

/-- Claim C5: the exclusion filter keeps a commit of the list exactly when it
is not the case that its subject matches CONV_PATTERN with a type token in
the exclusion set; a commit whose subject never matched is always kept.  The
filter looks only at the raw subject, so a breaking-change classification
gives no protection. -/
theorem c5_exclusion_filter (excluded : List (List Char)) (commits : List RawCommit)
    (c : RawCommit) (hc : c ∈ commits) :
    (c ∈ excludeFilter excluded commits
       ↔ ¬ ∃ m, matchConv c.subject = some m ∧ m.ctype ∈ excluded)
    ∧ (matchConv c.subject = none → c ∈ excludeFilter excluded commits) := by
  have hmem : c ∈ excludeFilter excluded commits
      ↔ (match matchConv c.subject with
          | some m => !(excluded.contains m.ctype)
          | none => true) = true := by
    rw [excludeFilter, List.mem_filter]
    exact and_iff_right hc
  constructor
  · rw [hmem]
    cases hm : matchConv c.subject with
    | none => simp
    | some m0 => simp
  · intro h
    rw [hmem, h]

/-- Witness for C5 at a concrete commit list. -/
theorem c5_exclusion_filter_witness :
    sampleBangCommit ∈ [sampleBangCommit, sampleFeatCommit]
    ∧ ((sampleBangCommit ∈ excludeFilter ["fix".data] [sampleBangCommit, sampleFeatCommit]
         ↔ ¬ ∃ m, matchConv sampleBangCommit.subject = some m ∧ m.ctype ∈ ["fix".data])
       ∧ (matchConv sampleBangCommit.subject = none →
            sampleBangCommit ∈ excludeFilter ["fix".data] [sampleBangCommit, sampleFeatCommit])) :=
  ⟨by decide,
   c5_exclusion_filter ["fix".data] [sampleBangCommit, sampleFeatCommit]
     sampleBangCommit (by decide)⟩

/-- The defaultdict loop of group_commits, generalized over the accumulated
dictionary: the bucket of a category is the accumulated bucket followed by
the classified commits of that category in input order. -/
theorem groupStep_foldl (l : List RawCommit) (g : List Char → List ClassifiedCommit)
    (cat : List Char) :
    (l.foldl groupStep g) cat
      = g cat ++ (l.map parse_commit).filter (fun p => p.category = cat) := by
  induction l generalizing g with
  | nil => simp
  | cons c l ih =>
    rw [List.foldl_cons, ih]
    by_cases h : (parse_commit c).category = cat
    · simp [groupStep, h, eq_comm]
    · have h' : ¬cat = (parse_commit c).category := fun hh => h hh.symm
      simp [groupStep, h, h']

/-- The by_date defaultdict loop, generalized over the accumulated
dictionary: the bucket of a date is the accumulated bucket followed by the
commits of that date in input order. -/
theorem dateStep_foldl (l : List RawCommit) (g : List Char → List RawCommit)
    (d : List Char) :
    (l.foldl dateStep g) d = g d ++ l.filter (fun c => c.date = d) := by
  induction l generalizing g with
  | nil => simp
  | cons c l ih =>
    rw [List.foldl_cons, ih]
    by_cases h : c.date = d
    · simp [dateStep, h, eq_comm]
    · have h' : ¬d = c.date := fun hh => h hh.symm
      simp [dateStep, h, h']

/-- The by_date bucket of a date is the stable filter of the input. -/
theorem byDate_eq_filter (commits : List RawCommit) (d : List Char) :
    byDate commits d = commits.filter (fun c => c.date = d) := by
  rw [byDate, dateStep_foldl]
  simp

/-- Claim C6: grouping is a stable partition: the bucket of a category is the
subsequence of the classified input having that category, in input order, so
every commit lands in exactly the bucket of its category with relative order
preserved. -/
theorem c6_stable_partition (commits : List RawCommit) (cat : List Char) :
    group_commits commits cat
      = (commits.map parse_commit).filter (fun p => p.category = cat) := by
  rw [group_commits, groupStep_foldl]
  simp

/-- Claim C9: past the configuration check and a successful from-ref
resolution, a run whose git log invocation fails, or yields no commits, or
whose commits are all removed by the exclusion filter, exits with code zero,
writes no file, prints no changelog, and ends with one of the two explanatory
standard-error lines; a failed invocation takes the same path as an empty
range because get_commits turns it into the empty list. -/
theorem c9_empty_result (args : Args) (env : GitEnv) (fr : List Char)
    (pre : List (List Char))
    (h1 : (args.prependFlag && !(truthy args.output)) = false)
    (h2 : resolveFrom args env = some (fr, pre))
    (h3 : env.logOut fr args.to_ref args.no_merges = none
        ∨ get_commits (env.logOut fr args.to_ref args.no_merges) = []
        ∨ (truthy args.exclude_types = true
           ∧ excludeFilter (excludedOf (args.exclude_types.getD []))
               (get_commits (env.logOut fr args.to_ref args.no_merges)) = [])) :
    (runMain args env).exitCode = 0
    ∧ (runMain args env).writes = []
    ∧ (runMain args env).stdoutText = none
    ∧ (runMain args env).logQueried = true
    ∧ ((runMain args env).stderrLines = pre ++ ["No commits found in range.".data]
       ∨ (runMain args env).stderrLines
           = pre ++ ["No commits remaining after filtering.".data]) := by
  have hrm : runMain args env = mainAfterFrom args env fr pre := by
    unfold runMain
    rw [h1, h2]
    rfl
  rw [hrm]
  simp only [mainAfterFrom]
  by_cases hcs : get_commits (env.logOut fr args.to_ref args.no_merges) = []
  · simp [hcs]
  · rcases h3 with h3 | h3 | ⟨hex, h3⟩
    · exact absurd (by rw [h3] ; rfl :
        get_commits (env.logOut fr args.to_ref args.no_merges) = []) hcs
    · exact absurd h3 hcs
    · simp [hcs, hex, h3]

/-- Witness for C9 at a concrete run whose git log invocation fails. -/
theorem c9_empty_result_witness :
    (sampleOkArgs.prependFlag && !(truthy sampleOkArgs.output)) = false
    ∧ resolveFrom sampleOkArgs sampleEnv = some ("v1".data, [])
    ∧ sampleEnv.logOut "v1".data sampleOkArgs.to_ref sampleOkArgs.no_merges = none
    ∧ ((runMain sampleOkArgs sampleEnv).exitCode = 0
       ∧ (runMain sampleOkArgs sampleEnv).writes = []
       ∧ (runMain sampleOkArgs sampleEnv).stdoutText = none
       ∧ (runMain sampleOkArgs sampleEnv).logQueried = true
       ∧ ((runMain sampleOkArgs sampleEnv).stderrLines
             = [] ++ ["No commits found in range.".data]
          ∨ (runMain sampleOkArgs sampleEnv).stderrLines
             = [] ++ ["No commits remaining after filtering.".data])) :=
  ⟨by decide, by decide, rfl,
   c9_empty_result sampleOkArgs sampleEnv "v1".data [] (by decide) (by decide)
     (Or.inl rfl)⟩

/-- takeWhile passes over a block whose members all satisfy the predicate. -/
theorem takeWhile_append_all {α} (p : α → Bool) (t r : List α)
    (h : ∀ c ∈ t, p c = true) :
    (t ++ r).takeWhile p = t ++ r.takeWhile p := by
  induction t with
  | nil => simp
  | cons a t ih =>
    have ha : p a = true := h a (by simp)
    simp [List.takeWhile_cons, ha,
      ih (fun c hc => h c (List.mem_cons_of_mem _ hc))]

/-- dropWhile passes over a block whose members all satisfy the predicate. -/
theorem dropWhile_append_all {α} (p : α → Bool) (t r : List α)
    (h : ∀ c ∈ t, p c = true) :
    (t ++ r).dropWhile p = r.dropWhile p := by
  induction t with
  | nil => simp
  | cons a t ih =>
    have ha : p a = true := h a (by simp)
    simp [List.dropWhile_cons, ha,
      ih (fun c hc => h c (List.mem_cons_of_mem _ hc))]

/-- Taking as many elements as the takeWhile run yields the takeWhile run. -/
theorem take_takeWhile_length {α} (p : α → Bool) (l : List α) :
    l.take (l.takeWhile p).length = l.takeWhile p := by
  obtain ⟨A, D, hA, hl⟩ : ∃ A D, A = l.takeWhile p ∧ l = A ++ D :=
    ⟨l.takeWhile p, l.dropWhile p, rfl, (List.takeWhile_append_dropWhile p l).symm⟩
  rw [← hA, hl, List.take_left]

/-- Dropping as many elements as the takeWhile run yields the dropWhile run. -/
theorem drop_takeWhile_length {α} (p : α → Bool) (l : List α) :
    l.drop (l.takeWhile p).length = l.dropWhile p := by
  obtain ⟨A, D, hA, hD, hl⟩ : ∃ A D, A = l.takeWhile p ∧ D = l.dropWhile p ∧ l = A ++ D :=
    ⟨l.takeWhile p, l.dropWhile p, rfl, rfl, (List.takeWhile_append_dropWhile p l).symm⟩
  rw [← hA, ← hD, hl, List.drop_left]

/-- The head of a nonempty dropWhile run falsifies the predicate. -/
theorem dropWhile_head_false {α} (p : α → Bool) (l : List α) (b : α) (l' : List α)
    (h : l.dropWhile p = b :: l') : p b = false := by
  induction l with
  | nil => simp at h
  | cons a l ih =>
    rw [List.dropWhile_cons] at h
    split at h
    · exact ih h
    · rename_i hpa
      cases h
      simpa using hpa

/-- When h1End succeeds the text starts with a hash, a space, a nonempty run
of non-newline characters and a newline. -/
theorem h1End_some_shape (s : List Char) (e : Nat) (h : h1End s = some e) :
    ∃ t' rest', t' ≠ [] ∧ (∀ ch ∈ t', ch ≠ '\n')
      ∧ s = '#' :: ' ' :: (t' ++ '\n' :: rest') := by
  rw [h1End.eq_def] at h
  split at h
  · rename_i r
    split at h
    · exact absurd h (by simp)
    · rename_i hcond
      push_neg at hcond
      obtain ⟨hd, hdrop⟩ := hcond
      cases hD : r.dropWhile (fun c => c ≠ '\n') with
      | nil => exact absurd hD hdrop
      | cons b l' =>
        have hb : decide (b ≠ '\n') = false := dropWhile_head_false _ r b l' hD
        have hb' : b = '\n' := by simpa using hb
        refine ⟨r.takeWhile (fun c => c ≠ '\n'), l', hd, ?_, ?_⟩
        · intro ch hch
          simpa using List.mem_takeWhile_imp hch
        · have hsplit := List.takeWhile_append_dropWhile (fun c => decide (c ≠ '\n')) r
          rw [hD, hb'] at hsplit
          conv_lhs => rw [← hsplit]
  · exact absurd h (by simp)

/-- Claim C2 as amended: merging into a nonexistent file writes the
synthesized Changelog heading, a blank line, the content and a final newline;
a heading is recognized only when the file itself starts with the top-level
heading line, in which case the content is spliced in after the heading line
and the newline run following it, preceded by one further newline and
followed by two, with the remainder unchanged; in every other case, even when
a top-level heading occurs further down, the content is prepended before the
whole existing text separated by a blank line. -/
theorem c2_merge_cases (new_content existing t rest : List Char)
    (ht1 : t ≠ []) (ht2 : ∀ ch ∈ t, ch ≠ '\n') :
    prepend_to_file none new_content
      = "# Changelog\n\n".data ++ new_content ++ "\n".data
    ∧ (existing = '#' :: ' ' :: (t ++ '\n' :: rest) →
        prepend_to_file (some existing) new_content
          = '#' :: ' ' :: (t ++ '\n' :: (rest.takeWhile (fun ch => ch = '\n')
              ++ '\n' :: (new_content
                  ++ '\n' :: '\n' :: rest.dropWhile (fun ch => ch = '\n')))))
    ∧ ((∀ t' rest', t' ≠ [] → (∀ ch ∈ t', ch ≠ '\n') →
          existing ≠ '#' :: ' ' :: (t' ++ '\n' :: rest')) →
        prepend_to_file (some existing) new_content
          = new_content ++ '\n' :: '\n' :: existing) := by
  refine ⟨rfl, ?_, ?_⟩
  · intro hex
    subst hex
    have hP : ∀ c ∈ t, (decide (c ≠ '\n')) = true := by
      intro c hc; simpa using ht2 c hc
    have htake : (t ++ '\n' :: rest).takeWhile (fun c => c ≠ '\n') = t := by
      rw [takeWhile_append_all _ _ _ hP]
      simp [List.takeWhile_cons]
    have hdrop : (t ++ '\n' :: rest).dropWhile (fun c => c ≠ '\n') = '\n' :: rest := by
      rw [dropWhile_append_all _ _ _ hP]
      simp [List.dropWhile_cons]
    have hend : h1End ('#' :: ' ' :: (t ++ '\n' :: rest)) = some (t.length + 3) := by
      rw [h1End]
      rw [htake, hdrop]
      simp [ht1]
    have hform : ('#' :: ' ' :: (t ++ '\n' :: rest) : List Char)
        = ('#' :: ' ' :: (t ++ ['\n'])) ++ rest := by simp
    have hlen : ('#' :: ' ' :: (t ++ ['\n']) : List Char).length = t.length + 3 := by
      simp [List.length_cons, List.length_append]
    show prependExisting ('#' :: ' ' :: (t ++ '\n' :: rest)) new_content = _
    rw [prependExisting, hend]
    simp only []
    rw [hform, ← hlen, List.drop_left, List.take_append, List.drop_append,
      take_takeWhile_length, drop_takeWhile_length]
    simp [List.append_assoc]
  · intro hno
    cases hh : h1End existing with
    | some e =>
      obtain ⟨t', rest', h1, h2, h3⟩ := h1End_some_shape existing e hh
      exact absurd h3 (hno t' rest' h1 h2)
    | none =>
      show prependExisting existing new_content = _
      rw [prependExisting, hh]

/-- Witness for the amended C2 at a concrete heading file. -/
theorem c2_merge_cases_witness :
    ("T".data ≠ [] ∧ ∀ ch ∈ "T".data, ch ≠ '\n')
    ∧ (prepend_to_file none "N".data
         = "# Changelog\n\n".data ++ "N".data ++ "\n".data
       ∧ ("# T\nOld".data = '#' :: ' ' :: ("T".data ++ '\n' :: "Old".data) →
            prepend_to_file (some "# T\nOld".data) "N".data
              = '#' :: ' ' :: ("T".data
                  ++ '\n' :: ("Old".data.takeWhile (fun ch => ch = '\n')
                  ++ '\n' :: ("N".data
                      ++ '\n' :: '\n' :: "Old".data.dropWhile (fun ch => ch = '\n')))))
       ∧ ((∀ t' rest', t' ≠ [] → (∀ ch ∈ t', ch ≠ '\n') →
              "# T\nOld".data ≠ '#' :: ' ' :: (t' ++ '\n' :: rest')) →
            prepend_to_file (some "# T\nOld".data) "N".data
              = "N".data ++ '\n' :: '\n' :: "# T\nOld".data)) :=
  ⟨⟨by decide, by decide⟩,
   c2_merge_cases "N".data "# T\nOld".data "T".data "Old".data
     (by decide) (by decide)⟩

/-- The cons normal form of a category heading line. -/
theorem secHeading_eq (cat : List Char) :
    secHeading cat = '#' :: '#' :: '#' :: ' ' :: (cat ++ ['\n']) := rfl

/-- The cons normal form of a date heading line. -/
theorem dateHeading_eq (d : List Char) :
    dateHeading d = '#' :: '#' :: ' ' :: (d ++ ['\n']) := rfl

/-- Category heading lines determine their category. -/
theorem secHeading_inj {cat cat' : List Char} (h : secHeading cat = secHeading cat') :
    cat = cat' := by
  have h' : cat ++ ['\n'] = cat' ++ ['\n'] := by
    simpa [secHeading_eq, List.cons.injEq] using h
  exact List.append_cancel_right h'

/-- Date heading lines determine their date. -/
theorem dateHeading_inj {d d' : List Char} (h : dateHeading d = dateHeading d') :
    d = d' := by
  have h' : d ++ ['\n'] = d' ++ ['\n'] := by
    simpa [dateHeading_eq, List.cons.injEq] using h
  exact List.append_cancel_right h'

/-- Membership through the descending insertion. -/
theorem mem_insertDesc (x y : List Char) (l : List (List Char)) :
    x ∈ insertDesc y l ↔ x = y ∨ x ∈ l := by
  induction l with
  | nil => simp [insertDesc]
  | cons z l ih =>
    rw [insertDesc]
    split
    · rw [List.mem_cons, ih, List.mem_cons]
      tauto
    · simp [List.mem_cons]

/-- Sorting does not change membership. -/
theorem mem_sortDesc (x : List Char) (l : List (List Char)) :
    x ∈ sortDesc l ↔ x ∈ l := by
  induction l with
  | nil => simp [sortDesc]
  | cons z l ih =>
    rw [sortDesc, mem_insertDesc, ih, List.mem_cons]

/-- Removing duplicates does not change membership. -/
theorem mem_dateKeys (x : List Char) (l : List (List Char)) :
    x ∈ dateKeys l ↔ x ∈ l := by
  induction l with
  | nil => simp [dateKeys]
  | cons z l ih =>
    rw [dateKeys, List.mem_cons, List.mem_filter, ih, List.mem_cons]
    by_cases hxz : x = z <;> simp [hxz]

/-- A category heading line occurs among the keepachangelog lines exactly when
the category has a nonempty bucket. -/
theorem secHeading_mem_kacLines (commits : List RawCommit) (to_ref today cat : List Char)
    (hcat : cat ∈ CATEGORY_ORDER) :
    secHeading cat ∈ kacLines commits to_ref today
      ↔ group_commits commits cat ≠ [] := by
  rw [kacLines, List.mem_cons, List.mem_flatMap]
  constructor
  · rintro (hhead | ⟨cat', hcat', hmem⟩)
    · exfalso
      have hne : (secHeading cat).get? 2
          ≠ (("## [".data ++ to_ref ++ "] - ".data ++ today ++ "\n".data) :
              List Char).get? 2 := by
        show some '#' ≠ some ' '
        simp
      exact hne (congrArg (fun l => l.get? 2) hhead)
    · by_cases hb : group_commits commits cat' = []
      · rw [if_pos hb] at hmem
        simp at hmem
      · rw [if_neg hb] at hmem
        rcases List.mem_cons.mp hmem with heq | hmem2
        · rw [secHeading_inj heq]
          exact hb
        · rcases List.mem_append.mp hmem2 with hmap | hlast
          · obtain ⟨cc, _, hcc⟩ := List.mem_map.mp hmap
            exfalso
            have hne : (kacBullet cc).get? 0 ≠ (secHeading cat).get? 0 := by
              show some '-' ≠ some '#'
              simp
            exact hne (congrArg (fun l => l.get? 0) hcc)
          · exfalso
            have hemp : secHeading cat = [] := by simpa using hlast
            simp [secHeading_eq] at hemp
  · intro hb
    right
    exact ⟨cat, hcat, by rw [if_neg hb]; exact List.mem_cons_self _ _⟩

/-- A category heading line occurs among the conventional lines exactly when
the category has a nonempty bucket. -/
theorem secHeading_mem_convLines (commits : List RawCommit) (to_ref today cat : List Char)
    (hcat : cat ∈ CATEGORY_ORDER) :
    secHeading cat ∈ convLines commits to_ref today
      ↔ group_commits commits cat ≠ [] := by
  rw [convLines, List.mem_cons, List.mem_flatMap]
  constructor
  · rintro (hhead | ⟨cat', hcat', hmem⟩)
    · exfalso
      have hne : (secHeading cat).get? 1
          ≠ (("# ".data ++ to_ref ++ " (".data ++ today ++ ")\n".data) :
              List Char).get? 1 := by
        show some '#' ≠ some ' '
        simp
      exact hne (congrArg (fun l => l.get? 1) hhead)
    · by_cases hb : group_commits commits cat' = []
      · rw [if_pos hb] at hmem
        simp at hmem
      · rw [if_neg hb] at hmem
        rcases List.mem_cons.mp hmem with heq | hmem2
        · rw [secHeading_inj heq]
          exact hb
        · rcases List.mem_append.mp hmem2 with hmap | hlast
          · obtain ⟨cc, _, hcc⟩ := List.mem_map.mp hmap
            exfalso
            have hne : (convBullet cc).get? 0 ≠ (secHeading cat).get? 0 := by
              show some '*' ≠ some '#'
              simp
            exact hne (congrArg (fun l => l.get? 0) hcc)
          · exfalso
            have hemp : secHeading cat = [] := by simpa using hlast
            simp [secHeading_eq] at hemp
  · intro hb
    right
    exact ⟨cat, hcat, by rw [if_neg hb]; exact List.mem_cons_self _ _⟩

/-- A date heading line occurs among the grouped lines exactly when some
commit carries that date. -/
theorem dateHeading_mem_groupedLines (commits : List RawCommit)
    (from_ref to_ref d : List Char) :
    dateHeading d ∈ groupedLines commits from_ref to_ref
      ↔ ∃ c ∈ commits, c.date = d := by
  rw [groupedLines, List.mem_cons, List.mem_flatMap]
  constructor
  · rintro (hhead | ⟨d', hd', hmem⟩)
    · exfalso
      have hne : (dateHeading d).get? 1
          ≠ (("# Changes: ".data ++ from_ref ++ " -> ".data ++ to_ref ++ "\n".data) :
              List Char).get? 1 := by
        show some '#' ≠ some ' '
        simp
      exact hne (congrArg (fun l => l.get? 1) hhead)
    · rcases List.mem_cons.mp hmem with heq | hmem2
      · rw [dateHeading_inj heq]
        have hmemd : d' ∈ commits.map (fun c => c.date) :=
          (mem_dateKeys _ _).mp ((mem_sortDesc _ _).mp hd')
        obtain ⟨c, hc, hcd⟩ := List.mem_map.mp hmemd
        exact ⟨c, hc, hcd⟩
      · rcases List.mem_append.mp hmem2 with hmap | hlast
        · obtain ⟨cc, _, hcc⟩ := List.mem_map.mp hmap
          exfalso
          have hne : (groupedBullet cc).get? 0 ≠ (dateHeading d).get? 0 := by
            show some '-' ≠ some '#'
            simp
          exact hne (congrArg (fun l => l.get? 0) hcc)
        · exfalso
          have hemp : dateHeading d = [] := by simpa using hlast
          simp [dateHeading_eq] at hemp
  · rintro ⟨c, hc, hcd⟩
    right
    refine ⟨d, ?_, List.mem_cons_self _ _⟩
    rw [mem_sortDesc, mem_dateKeys]
    exact List.mem_map.mpr ⟨c, hc, hcd⟩

/-- Claim C7: for each of the three strategies, the line list the renderer
joins contains a section heading exactly when the section is inhabited: a
category heading appears in the keepachangelog and conventional layouts iff
the category bucket is nonempty, and a date heading appears in the grouped
layout iff some commit carries that date; an empty category or date yields no
heading. -/
theorem c7_no_empty_sections (commits : List RawCommit)
    (cat d from_ref to_ref today : List Char) (hcat : cat ∈ CATEGORY_ORDER) :
    (secHeading cat ∈ kacLines commits to_ref today
       ↔ group_commits commits cat ≠ [])
    ∧ (secHeading cat ∈ convLines commits to_ref today
       ↔ group_commits commits cat ≠ [])
    ∧ (dateHeading d ∈ groupedLines commits from_ref to_ref
       ↔ ∃ c ∈ commits, c.date = d) :=
  ⟨secHeading_mem_kacLines commits to_ref today cat hcat,
   secHeading_mem_convLines commits to_ref today cat hcat,
   dateHeading_mem_groupedLines commits from_ref to_ref d⟩

/-- Witness for C7 at a concrete commit list. -/
theorem c7_no_empty_sections_witness :
    "Added".data ∈ CATEGORY_ORDER
    ∧ ((secHeading "Added".data ∈ kacLines [sampleFeatCommit] "v2".data "2024-02-02".data
          ↔ group_commits [sampleFeatCommit] "Added".data ≠ [])
       ∧ (secHeading "Added".data ∈ convLines [sampleFeatCommit] "v2".data "2024-02-02".data
          ↔ group_commits [sampleFeatCommit] "Added".data ≠ [])
       ∧ (dateHeading "2024-01-04".data
            ∈ groupedLines [sampleFeatCommit] "v1".data "v2".data
          ↔ ∃ c ∈ [sampleFeatCommit], c.date = "2024-01-04".data)) :=
  ⟨by decide,
   c7_no_empty_sections [sampleFeatCommit] "Added".data "2024-01-04".data
     "v1".data "v2".data "2024-02-02".data (by decide)⟩

end Changelog
